import Mathlib

/-!
Verification of the WebGIS selection & spatial query subsystem
(`src/script.js` client, `src/unnamed/part_000` client variant,
`src/unnamed/part_001` Express/PostGIS server) against its specification.

Shallow embedding: JavaScript values are modelled with explicit inductive
types, JS `Map` insertion-ordered maps as association lists, and the
numeric coercions of the server's query handling as an explicit
NaN-or-finite type over `ℚ`.
-/

namespace WebGIS

/-! ## Client data model

A GeoJSON feature as the client consumes it: a property bag
(`feature.properties`, possibly `null`, hence `Option`) whose scalar
values are modelled by their JS string form (the client only ever uses
`String(props[k])`), plus the Leaflet-visible geometry handle: point
layers answer `getLatLng`, path layers answer `getBounds`, and anything
else answers neither. -/

structure Box where
  minX : ℚ
  minY : ℚ
  maxX : ℚ
  maxY : ℚ
deriving DecidableEq, Repr

inductive LGeom where
  | pt (x y : ℚ)
  | bounded (b : Box)
  | nogeom
deriving DecidableEq, Repr

structure Feature where
  props : Option (List (String × String))
  geom : LGeom
deriving DecidableEq, Repr

/-- `Object.keys(feature.properties)` guarded by the `if (f.properties)`
truthiness test of `loadGeoJSON` (`src/script.js` lines 101-104): a `null`
property bag contributes no keys. -/
def keysOf (f : Feature) : List String :=
  match f.props with
  | some ps => ps.map Prod.fst
  | none => []

/-- One step of the key-union accumulation:
`if (!allPropertyKeys.includes(k)) allPropertyKeys.push(k)`
(`src/script.js` line 103). -/
def pushNew (acc : List String) (k : String) : List String :=
  if k ∈ acc then acc else acc ++ [k]

/-- `Object.keys(f.properties).forEach(k => pushNew ...)` over one key list. -/
def pushNewAll (acc ks : List String) : List String :=
  ks.foldl pushNew acc

/-- The key union computed by `loadGeoJSON` (`src/script.js` lines 98-107):
fold over the features in sequence order, appending each not-yet-seen
property name.  The source guards the loop with
`if (obj.features && obj.features.length)`; for an empty feature list the
fold below likewise produces `[]`, so the guard is result-equivalent. -/
def computeKeyUnion (fs : List Feature) : List String :=
  fs.foldl (fun acc f => pushNewAll acc (keysOf f)) []

/-- All property names in order of appearance (feature order, then key
order inside each feature), with multiplicity. -/
def flatKeys : List Feature → List String
  | [] => []
  | f :: r => keysOf f ++ flatKeys r

/-- Specification-side description of first-seen deduplication: keep each
element of `l` that is not in `seen` at its first occurrence. -/
def firstSeenFrom (seen : List String) : List String → List String
  | [] => []
  | k :: ks =>
      if k ∈ seen then firstSeenFrom seen ks
      else k :: firstSeenFrom (seen ++ [k]) ks

/-- Specification-side "each key once, ordered by first appearance". -/
def firstSeen (l : List String) : List String :=
  firstSeenFrom [] l

/-! ### Key-union lemmas -/

theorem mem_pushNew {acc : List String} {k x : String} :
    x ∈ pushNew acc k ↔ x ∈ acc ∨ x = k := by
  unfold pushNew
  by_cases h : k ∈ acc
  · simp only [if_pos h]
    constructor
    · exact Or.inl
    · rintro (hx | rfl)
      · exact hx
      · exact h
  · simp [if_neg h]

theorem mem_pushNewAll {x : String} :
    ∀ {ks acc : List String}, x ∈ pushNewAll acc ks ↔ x ∈ acc ∨ x ∈ ks := by
  intro ks
  induction ks with
  | nil => intro acc; simp [pushNewAll]
  | cons k ks ih =>
      intro acc
      show x ∈ pushNewAll (pushNew acc k) ks ↔ _
      rw [ih, mem_pushNew]
      simp [or_assoc]

theorem pushNewAll_eq_append_firstSeenFrom :
    ∀ (ks acc : List String), pushNewAll acc ks = acc ++ firstSeenFrom acc ks := by
  intro ks
  induction ks with
  | nil => intro acc; simp [pushNewAll, firstSeenFrom]
  | cons k ks ih =>
      intro acc
      show pushNewAll (pushNew acc k) ks = _
      unfold pushNew firstSeenFrom
      by_cases h : k ∈ acc
      · simp only [if_pos h]
        exact ih acc
      · simp only [if_neg h]
        rw [ih (acc ++ [k])]
        simp

theorem nodup_pushNewAll :
    ∀ {ks acc : List String}, acc.Nodup → (pushNewAll acc ks).Nodup := by
  intro ks
  induction ks with
  | nil => intro acc h; exact h
  | cons k ks ih =>
      intro acc h
      show (pushNewAll (pushNew acc k) ks).Nodup
      apply ih
      unfold pushNew
      by_cases hk : k ∈ acc
      · simpa [hk]
      · simp [hk, List.nodup_append, h]

theorem computeKeyUnion_eq_pushNewAll_flatKeys :
    ∀ (fs : List Feature) (acc : List String),
      fs.foldl (fun a f => pushNewAll a (keysOf f)) acc = pushNewAll acc (flatKeys fs) := by
  intro fs
  induction fs with
  | nil => intro acc; simp [flatKeys, pushNewAll]
  | cons f r ih =>
      intro acc
      show r.foldl _ (pushNewAll acc (keysOf f)) = _
      rw [ih, flatKeys]
      unfold pushNewAll
      rw [List.foldl_append]

theorem mem_computeKeyUnion {fs : List Feature} {k : String} :
    k ∈ computeKeyUnion fs ↔ k ∈ flatKeys fs := by
  unfold computeKeyUnion
  rw [computeKeyUnion_eq_pushNewAll_flatKeys, mem_pushNewAll]
  simp

theorem mem_flatKeys {fs : List Feature} {k : String} :
    k ∈ flatKeys fs ↔ ∃ f ∈ fs, k ∈ keysOf f := by
  induction fs with
  | nil => simp [flatKeys]
  | cons f r ih =>
      simp [flatKeys, ih]

/-- Claim C5 key facts packaged for reuse. -/
theorem computeKeyUnion_spec (fs : List Feature) :
    computeKeyUnion fs = firstSeen (flatKeys fs) ∧
      (computeKeyUnion fs).Nodup ∧
      ∀ k, k ∈ computeKeyUnion fs ↔ ∃ f ∈ fs, k ∈ keysOf f := by
  refine ⟨?_, ?_, ?_⟩
  · unfold computeKeyUnion firstSeen
    rw [computeKeyUnion_eq_pushNewAll_flatKeys, pushNewAll_eq_append_firstSeenFrom]
    simp
  · unfold computeKeyUnion
    rw [computeKeyUnion_eq_pushNewAll_flatKeys]
    exact nodup_pushNewAll List.nodup_nil
  · intro k
    rw [mem_computeKeyUnion, mem_flatKeys]

/-! ## Client state and selection operations

`selected` is the JS `Map` `layerId -> { feature, layer }` (insertion
order matters), modelled as an association list; `allPropertyKeys` is the
global key union; `layers` the contents of `geojsonLayer`. -/

structure Layer where
  lid : Nat
  feature : Feature
deriving DecidableEq, Repr

structure ClientState where
  layers : List Layer
  selected : List (Nat × Feature)
  allPropertyKeys : List String
deriving DecidableEq, Repr

/-- `selected.has(lid)`. -/
def selHas (sel : List (Nat × Feature)) (k : Nat) : Bool :=
  sel.any (fun p => p.1 == k)

/-- `selectLayer` (`src/script.js` lines 299-305): add the layer to the
selection when its id is not already present; the `setStyle` attempt has
no effect on the modelled state. -/
def selectLayer (sel : List (Nat × Feature)) (ly : Layer) : List (Nat × Feature) :=
  if selHas sel ly.lid then sel else sel ++ [(ly.lid, ly.feature)]

/-- Leaflet `LatLngBounds.contains(latlng)`: inclusive bounds test. -/
def rectContainsPt (r : Box) (x y : ℚ) : Bool :=
  decide (r.minX ≤ x) && decide (x ≤ r.maxX) && decide (r.minY ≤ y) && decide (y ≤ r.maxY)

/-- Leaflet `LatLngBounds.intersects`: inclusive axis-aligned overlap. -/
def boxOverlap (a b : Box) : Bool :=
  decide (a.minX ≤ b.maxX) && decide (b.minX ≤ a.maxX) &&
    decide (a.minY ≤ b.maxY) && decide (b.minY ≤ a.maxY)

/-- The per-layer test of the `L.Draw.Event.CREATED` handler
(`src/script.js` lines 286-292): point layers (`getLatLng`) use a
containment test, layers with bounds use a bounding-box intersection
test, anything else is skipped. -/
def layerHitsRect (r : Box) (ly : Layer) : Bool :=
  match ly.feature.geom with
  | .pt x y => rectContainsPt r x y
  | .bounded b => boxOverlap r b
  | .nogeom => false

/-- Shared shape of the two `geojsonLayer.eachLayer` selection loops:
`selectLayer` guarded by a per-layer condition (the rectangle test for
rectangle selection, vacuously true for select-all). -/
def selFoldStep (cond : Layer → Bool) (sel : List (Nat × Feature)) (ly : Layer) :
    List (Nat × Feature) :=
  if cond ly then selectLayer sel ly else sel

/-- Rectangle selection (`src/script.js` lines 281-297): iterate the
loaded layers, selecting each one hit by the rectangle.  The drawn
rectangle itself lives in `drawnItems`, outside the modelled state. -/
def rectSelect (r : Box) (st : ClientState) : ClientState :=
  { st with selected := st.layers.foldl (selFoldStep (layerHitsRect r)) st.selected }

/-- `select-all` click handler (`src/script.js` lines 167-176). -/
def selectAllOp (st : ClientState) : ClientState :=
  { st with selected := st.layers.foldl (selFoldStep (fun _ => true)) st.selected }

/-- `deselect-all` / `clear-selection` click handlers
(`src/script.js` lines 178-188). -/
def clearSelection (st : ClientState) : ClientState :=
  { st with selected := [] }

/-- `toggleSelect` (`src/script.js` lines 74-84), keyed by the clicked
layer's id; clicks only arrive on layers of `geojsonLayer`. -/
def toggleSelect (k : Nat) (st : ClientState) : ClientState :=
  match st.layers.find? (fun ly => ly.lid == k) with
  | none => st
  | some ly =>
      if selHas st.selected k then
        { st with selected := st.selected.filter (fun p => p.1 != k) }
      else
        { st with selected := st.selected ++ [(k, ly.feature)] }

/-- `loadGeoJSON` (`src/script.js` lines 89-112) applied to a
FeatureCollection's feature list: the layer set, the selection and the
key union are replaced wholesale; Leaflet assigns fresh distinct layer
ids, modelled by enumeration. -/
def loadGeoJSON (fs : List Feature) : ClientState :=
  { layers := fs.enum.map (fun p => { lid := p.1, feature := p.2 }),
    selected := [],
    allPropertyKeys := computeKeyUnion fs }

inductive SelOp where
  | toggle (k : Nat)
  | selectAll
  | clear
  | rect (r : Box)
deriving DecidableEq, Repr

def applyOp (st : ClientState) : SelOp → ClientState
  | .toggle k => toggleSelect k st
  | .selectAll => selectAllOp st
  | .clear => clearSelection st
  | .rect r => rectSelect r st

def applyOps (ops : List SelOp) (st : ClientState) : ClientState :=
  ops.foldl applyOp st

/-! ### Selection-fold lemmas -/

theorem selHas_iff {sel : List (Nat × Feature)} {k : Nat} :
    selHas sel k = true ↔ ∃ p ∈ sel, p.1 = k := by
  simp [selHas]

theorem mem_selectLayer {sel : List (Nat × Feature)} {ly : Layer} {p : Nat × Feature}
    (h : p ∈ sel) : p ∈ selectLayer sel ly := by
  unfold selectLayer
  by_cases hk : selHas sel ly.lid
  · simpa [hk]
  · simp [hk, List.mem_append, h]

theorem selHas_selectLayer_self {sel : List (Nat × Feature)} {ly : Layer} :
    selHas (selectLayer sel ly) ly.lid = true := by
  unfold selectLayer
  by_cases hk : selHas sel ly.lid
  · simp [hk]
  · simp only [if_neg hk]
    rw [selHas_iff]
    exact ⟨(ly.lid, ly.feature), by simp⟩

theorem mem_selFold {cond : Layer → Bool} {p : Nat × Feature} :
    ∀ {layers : List Layer} {sel : List (Nat × Feature)},
      p ∈ sel → p ∈ layers.foldl (selFoldStep cond) sel := by
  intro layers
  induction layers with
  | nil => intro sel h; exact h
  | cons ly rest ih =>
      intro sel h
      show p ∈ rest.foldl (selFoldStep cond) (selFoldStep cond sel ly)
      apply ih
      unfold selFoldStep
      by_cases hc : cond ly
      · simp only [if_pos hc]
        exact mem_selectLayer h
      · simp [hc, h]

theorem selHas_selFold {cond : Layer → Bool} {k : Nat} :
    ∀ {layers : List Layer} {sel : List (Nat × Feature)},
      selHas sel k = true → selHas (layers.foldl (selFoldStep cond) sel) k = true := by
  intro layers sel h
  rcases selHas_iff.mp h with ⟨p, hp, hpk⟩
  exact selHas_iff.mpr ⟨p, mem_selFold hp, hpk⟩

theorem selHas_selFold_of_hit {cond : Layer → Bool} :
    ∀ {layers : List Layer} {sel : List (Nat × Feature)} {ly : Layer},
      ly ∈ layers → cond ly = true →
        selHas (layers.foldl (selFoldStep cond) sel) ly.lid = true := by
  intro layers
  induction layers with
  | nil => intro sel ly h; exact absurd h (List.not_mem_nil ly)
  | cons hd rest ih =>
      intro sel ly hmem hc
      rcases List.mem_cons.mp hmem with rfl | htail
      · show selHas (rest.foldl (selFoldStep cond) (selFoldStep cond sel ly)) ly.lid = true
        apply selHas_selFold
        unfold selFoldStep
        rw [if_pos hc]
        exact selHas_selectLayer_self
      · exact ih htail hc

theorem selFold_no_new {cond : Layer → Bool} :
    ∀ {layers : List Layer} {sel : List (Nat × Feature)},
      (∀ ly ∈ layers, cond ly = true → selHas sel ly.lid = true) →
        layers.foldl (selFoldStep cond) sel = sel := by
  intro layers
  induction layers with
  | nil => intro sel _; rfl
  | cons hd rest ih =>
      intro sel h
      show rest.foldl (selFoldStep cond) (selFoldStep cond sel hd) = sel
      have hstep : selFoldStep cond sel hd = sel := by
        unfold selFoldStep
        by_cases hc : cond hd
        · have := h hd (List.mem_cons_self hd rest) hc
          simp [hc, selectLayer, this]
        · simp [hc]
      rw [hstep]
      exact ih (fun ly hly hc => h ly (List.mem_cons_of_mem hd hly) hc)

/-- Idempotence of one rectangle selection pass: a second identical pass
adds nothing because every layer hit by the rectangle already has its id
in the selection after the first pass. -/
theorem rectSelect_idem (r : Box) (st : ClientState) :
    rectSelect r (rectSelect r st) = rectSelect r st := by
  unfold rectSelect
  congr 1
  exact selFold_no_new (fun ly hly hc => selHas_selFold_of_hit hly hc)

/-! ## Attribute table keys and the load invariant -/

/-- The fallback key derivation of `updateAttributeTable`
(`src/script.js` lines 233-237): when the stored union is empty and
something is selected, keys are re-derived from the selected features. -/
def tableKeysFallback (sel : List (Nat × Feature)) : List String :=
  sel.foldl (fun acc p => pushNewAll acc (keysOf p.2)) []

/-- The key list `updateAttributeTable` renders with
(`src/script.js` lines 232-237): a copy of `allPropertyKeys`, replaced by
the fallback when it is empty and the selection is not. -/
def tableKeys (st : ClientState) : List String :=
  if st.allPropertyKeys.length = 0 ∧ 0 < st.selected.length then
    tableKeysFallback st.selected
  else st.allPropertyKeys

/-- The key list the `export-csv` handler uses
(`src/script.js` line 204): `allPropertyKeys` directly, no fallback. -/
def csvKeys (st : ClientState) : List String :=
  st.allPropertyKeys

/-- Everything the table/export claims need about a state reached after
loading `fs`: the stored union is the one computed at load, the loaded
layers carry exactly `fs`, and every selected feature is a loaded one. -/
def loadedInv (fs : List Feature) (st : ClientState) : Prop :=
  st.allPropertyKeys = computeKeyUnion fs ∧
    st.layers.map Layer.feature = fs ∧
    ∀ p ∈ st.selected, p.2 ∈ fs

theorem loadedInv_load (fs : List Feature) : loadedInv fs (loadGeoJSON fs) := by
  refine ⟨rfl, ?_, ?_⟩
  · show (fs.enum.map _).map Layer.feature = fs
    rw [List.map_map]
    exact List.enum_map_snd fs
  · intro p hp
    exact absurd hp (List.not_mem_nil p)

theorem mem_selFold_cases {cond : Layer → Bool} {p : Nat × Feature} :
    ∀ {layers : List Layer} {sel : List (Nat × Feature)},
      p ∈ layers.foldl (selFoldStep cond) sel →
        p ∈ sel ∨ ∃ ly ∈ layers, p = (ly.lid, ly.feature) := by
  intro layers
  induction layers with
  | nil => intro sel h; exact Or.inl h
  | cons hd rest ih =>
      intro sel h
      rcases ih h with hstep | ⟨ly, hly, rfl⟩
      · unfold selFoldStep selectLayer at hstep
        by_cases hc : cond hd
        · rw [if_pos hc] at hstep
          by_cases hk : selHas sel hd.lid
          · rw [if_pos hk] at hstep
            exact Or.inl hstep
          · rw [if_neg hk] at hstep
            rcases List.mem_append.mp hstep with hin | hnew
            · exact Or.inl hin
            · exact Or.inr ⟨hd, List.mem_cons_self hd rest, List.mem_singleton.mp hnew⟩
        · rw [if_neg hc] at hstep
          exact Or.inl hstep
      · exact Or.inr ⟨ly, List.mem_cons_of_mem hd hly, rfl⟩

theorem loadedInv_applyOp {fs : List Feature} {st : ClientState} (op : SelOp)
    (h : loadedInv fs st) : loadedInv fs (applyOp st op) := by
  obtain ⟨hkeys, hlayers, hsel⟩ := h
  have hlayerFeat : ∀ ly ∈ st.layers, ly.feature ∈ fs := by
    intro ly hly
    rw [← hlayers]
    exact List.mem_map_of_mem Layer.feature hly
  cases op with
  | toggle k =>
      show loadedInv fs (toggleSelect k st)
      unfold toggleSelect
      cases hfind : st.layers.find? (fun ly => ly.lid == k) with
      | none => exact ⟨hkeys, hlayers, hsel⟩
      | some ly =>
          have hlymem : ly ∈ st.layers := List.mem_of_find?_eq_some hfind
          dsimp only
          by_cases hk : selHas st.selected k
          · rw [if_pos hk]
            refine ⟨hkeys, hlayers, ?_⟩
            intro p hp
            exact hsel p (List.mem_of_mem_filter hp)
          · rw [if_neg hk]
            refine ⟨hkeys, hlayers, ?_⟩
            intro p hp
            rcases List.mem_append.mp hp with hin | hnew
            · exact hsel p hin
            · rw [List.mem_singleton.mp hnew]
              exact hlayerFeat ly hlymem
  | selectAll =>
      refine ⟨hkeys, hlayers, ?_⟩
      intro p hp
      rcases mem_selFold_cases hp with hin | ⟨ly, hly, rfl⟩
      · exact hsel p hin
      · exact hlayerFeat ly hly
  | clear =>
      exact ⟨hkeys, hlayers, fun p hp => absurd hp (List.not_mem_nil p)⟩
  | rect r =>
      refine ⟨hkeys, hlayers, ?_⟩
      intro p hp
      rcases mem_selFold_cases hp with hin | ⟨ly, hly, rfl⟩
      · exact hsel p hin
      · exact hlayerFeat ly hly

theorem loadedInv_applyOps {fs : List Feature} :
    ∀ (ops : List SelOp) {st : ClientState}, loadedInv fs st →
      loadedInv fs (applyOps ops st) := by
  intro ops
  induction ops with
  | nil => intro st h; exact h
  | cons op rest ih =>
      intro st h
      exact ih (loadedInv_applyOp op h)

theorem keysOf_eq_nil_of_union_nil {fs : List Feature}
    (h : computeKeyUnion fs = []) : ∀ f ∈ fs, keysOf f = [] := by
  intro f hf
  rw [List.eq_nil_iff_forall_not_mem]
  intro k hk
  have hmem : k ∈ computeKeyUnion fs :=
    mem_computeKeyUnion.mpr (mem_flatKeys.mpr ⟨f, hf, hk⟩)
  rw [h] at hmem
  exact absurd hmem (List.not_mem_nil k)

theorem tableKeysFallback_eq_union (sel : List (Nat × Feature)) :
    tableKeysFallback sel = computeKeyUnion (sel.map Prod.snd) := by
  unfold tableKeysFallback computeKeyUnion
  rw [List.foldl_map]

theorem tableKeysFallback_nil {fs : List Feature} {sel : List (Nat × Feature)}
    (hu : computeKeyUnion fs = []) (hsub : ∀ p ∈ sel, p.2 ∈ fs) :
    tableKeysFallback sel = [] := by
  rw [tableKeysFallback_eq_union, List.eq_nil_iff_forall_not_mem]
  intro k hk
  rcases (computeKeyUnion_spec (sel.map Prod.snd)).2.2 k |>.mp hk with ⟨f, hf, hkf⟩
  rcases List.mem_map.mp hf with ⟨p, hp, rfl⟩
  have : keysOf p.2 = [] := keysOf_eq_nil_of_union_nil hu p.2 (hsub p hp)
  rw [this] at hkf
  exact absurd hkf (List.not_mem_nil k)

theorem tableKeys_eq_union {fs : List Feature} {st : ClientState}
    (h : loadedInv fs st) : tableKeys st = computeKeyUnion fs := by
  obtain ⟨hkeys, _, hsel⟩ := h
  unfold tableKeys
  by_cases hcond : st.allPropertyKeys.length = 0 ∧ 0 < st.selected.length
  · rw [if_pos hcond]
    have hunil : computeKeyUnion fs = [] := by
      rw [← hkeys]
      exact List.length_eq_zero.mp hcond.1
    rw [tableKeysFallback_nil hunil hsel, hunil]
  · rw [if_neg hcond]
    exact hkeys

/-! ## CSV export -/

/-- `v.replace(/"/g, '""')` (`src/script.js` line 211). -/
def doubleQuotes (v : String) : String :=
  String.mk (v.data.flatMap (fun c => if c = '"' then ['"', '"'] else [c]))

/-- One CSV field: the stringified value wrapped in double quotes with
embedded quotes doubled. -/
def csvQuote (v : String) : String :=
  "\"" ++ doubleQuotes v ++ "\""

/-- `props[k] !== undefined ? String(props[k]) : ''` over
`feature.properties || {}` (`src/script.js` lines 208-210). -/
def propOrEmpty (f : Feature) (k : String) : String :=
  match (f.props.getD []).lookup k with
  | some v => v
  | none => ""

/-- The rows assembled by the `export-csv` handler
(`src/script.js` lines 202-214), as per-row field lists before joining:
the header row is the key union verbatim (`rows.push(keys.join(','))` —
no extra column), then one data row per selected entry in insertion
order, one quoted field per key. -/
def exportCSVRows (st : ClientState) : List (List String) :=
  csvKeys st ::
    st.selected.map (fun p => (csvKeys st).map (fun k => csvQuote (propOrEmpty p.2 k)))

/-- The CSV text `rows.join('\n')` of comma-joined rows; `none` models the
`No features selected` alert / early return. -/
def exportCSV (st : ClientState) : Option String :=
  if st.selected.length = 0 then none
  else some (String.intercalate "\n" ((exportCSVRows st).map (String.intercalate ",")))

/-! ## Attribute table HTML -/

/-- `escapeHtml` (`src/script.js` lines 267-269): global replacement of
`&`, `<`, `>`, `"` by their HTML entities, other characters unchanged. -/
def escapeChar (c : Char) : String :=
  if c = '&' then "&amp;"
  else if c = '<' then "&lt;"
  else if c = '>' then "&gt;"
  else if c = '"' then "&quot;"
  else String.singleton c

def escapeHtml (s : String) : String :=
  s.data.foldl (fun acc c => acc ++ escapeChar c) ""

/-- Header row HTML (`src/script.js` lines 240-243): a literal `#` cell,
then one `<th>` per key — the key text is interpolated raw, without
`escapeHtml`. -/
def headInnerHTML (st : ClientState) : String :=
  (tableKeys st).foldl (fun acc k => acc ++ ("<th>" ++ k ++ "</th>")) "<tr><th>#</th>" ++ "</tr>"

/-- One body row (`src/script.js` lines 249-251): the 1-based index cell,
then one `<td>` per key holding the HTML-escaped string value. -/
def bodyRowHTML (keys : List String) (i : Nat) (f : Feature) : String :=
  keys.foldl (fun acc k => acc ++ ("<td>" ++ escapeHtml (propOrEmpty f k) ++ "</td>"))
      ("<tr><td>" ++ toString i ++ "</td>") ++ "</tr>"

/-- Body HTML (`src/script.js` lines 246-254): rows appended in selection
insertion order via `insertAdjacentHTML('beforeend', ...)`. -/
def bodyInnerHTML (st : ClientState) : String :=
  (st.selected.enum.map (fun p => bodyRowHTML (tableKeys st) (p.1 + 1) p.2.2)).foldl
      (fun acc row => acc ++ row) ""

/-- Declarative concatenation, used to restate the imperative
string-building loops cell by cell. -/
def strConcatMap {α : Type} (g : α → String) : List α → String
  | [] => ""
  | x :: r => g x ++ strConcatMap g r

theorem foldl_strAppend {α : Type} (g : α → String) :
    ∀ (l : List α) (s : String),
      l.foldl (fun acc x => acc ++ g x) s = s ++ strConcatMap g l := by
  intro l
  induction l with
  | nil => intro s; simp [strConcatMap]
  | cons x r ih =>
      intro s
      show r.foldl _ (s ++ g x) = _
      rw [ih, strConcatMap, String.append_assoc]

theorem headInnerHTML_cells (st : ClientState) :
    headInnerHTML st =
      "<tr><th>#</th>" ++
        strConcatMap (fun k => "<th>" ++ k ++ "</th>") (tableKeys st) ++ "</tr>" := by
  unfold headInnerHTML
  rw [foldl_strAppend]

theorem bodyRowHTML_cells (keys : List String) (i : Nat) (f : Feature) :
    bodyRowHTML keys i f =
      "<tr><td>" ++ toString i ++ "</td>" ++
        strConcatMap (fun k => "<td>" ++ escapeHtml (propOrEmpty f k) ++ "</td>") keys ++
        "</tr>" := by
  unfold bodyRowHTML
  rw [foldl_strAppend, String.append_assoc]

theorem bodyInnerHTML_rows (st : ClientState) :
    bodyInnerHTML st =
      strConcatMap (fun p => bodyRowHTML (tableKeys st) (p.1 + 1) p.2.2) st.selected.enum := by
  unfold bodyInnerHTML
  have h := foldl_strAppend (fun s : String => s)
      (st.selected.enum.map (fun p => bodyRowHTML (tableKeys st) (p.1 + 1) p.2.2)) ""
  rw [h]
  have hmap : ∀ {α : Type} (g : α → String) (l : List α),
      strConcatMap (fun s : String => s) (l.map g) = strConcatMap g l := by
    intro α g l
    induction l with
    | nil => rfl
    | cons x r ih => simp [strConcatMap, ih]
  rw [hmap]
  simp

/-! ## Concrete sample states for witnesses and counterexamples -/

def sampleFeature : Feature :=
  { props := some [("id", "1")], geom := .pt 0 0 }

def angleFeature : Feature :=
  { props := some [("<x", "1")], geom := .pt 0 0 }

def sampleRect : Box :=
  { minX := 0, minY := 0, maxX := 10, maxY := 10 }

/-- A state with one loaded, selected point feature carrying key `id`. -/
def sampleState : ClientState :=
  applyOps [SelOp.toggle 0] (loadGeoJSON [sampleFeature])

/-- A state whose single feature has a property key containing `<`. -/
def angleState : ClientState :=
  applyOps [SelOp.toggle 0] (loadGeoJSON [angleFeature])

theorem strConcatMap_congr {α : Type} {g g' : α → String} (h : ∀ x, g x = g' x) :
    ∀ l, strConcatMap g l = strConcatMap g' l := by
  intro l
  induction l with
  | nil => rfl
  | cons x r ih => rw [strConcatMap, strConcatMap, h x, ih]

/-! ## Raw import handling (file input)

The import contract quantifies over arbitrary parsed JSON, before any
FeatureCollection shape is known, so this part of the model works on a
JSON value type. -/

inductive JVal where
  | null
  | bool (b : Bool)
  | num (q : ℚ)
  | str (s : String)
  | arr (elems : List JVal)
  | obj (fields : List (String × JVal))

/-- JavaScript truthiness of a JSON value. -/
def JVal.truthy : JVal → Bool
  | .null => false
  | .bool b => b
  | .num q => decide (q ≠ 0)
  | .str s => decide (s ≠ "")
  | .arr _ => true
  | .obj _ => true

/-- JS property access `j.k`: `none` models `undefined` (also for access
on non-objects). -/
def JVal.field (j : JVal) (k : String) : Option JVal :=
  match j with
  | .obj fields => fields.lookup k
  | _ => none

theorem sizeOf_lookup_lt {fields : List (String × JVal)} {k : String} {v : JVal}
    (h : fields.lookup k = some v) : sizeOf v < sizeOf fields := by
  induction fields with
  | nil => simp [List.lookup] at h
  | cons p rest ih =>
      rcases p with ⟨a, b⟩
      cases hk : (k == a) with
      | true =>
          simp [List.lookup, hk] at h
          subst h
          simp
          omega
      | false =>
          simp [List.lookup, hk] at h
          have := ih h
          simp
          omega

/-- The geometry types Leaflet's `geometryToLayer` switch accepts. -/
def geomTypes : List String :=
  ["Point", "MultiPoint", "LineString", "MultiLineString",
    "Polygon", "MultiPolygon", "GeometryCollection"]

def isFeatureTag : Option JVal → Bool
  | some (.str s) => s == "Feature"
  | _ => false

/-- Model of the external Leaflet collaborator
`L.GeoJSON.geometryToLayer`: a `Feature` object contributes its geometry
(`null` geometry yields no layer, silently); anything else is treated as
a bare geometry; an unrecognised geometry type throws
`Invalid GeoJSON object.`.  Result: layers produced, and whether it
threw.  Coordinate-level validation is elided — no settled claim
depends on it. -/
def toLayerModel (j : JVal) : List JVal × Bool :=
  let geometry : JVal :=
    if isFeatureTag (j.field "type") then (j.field "geometry").getD .null else j
  if geometry.truthy = false then ([], false)
  else
    match geometry.field "type" with
    | some (.str t) => if t ∈ geomTypes then ([j], false) else ([], true)
    | _ => ([], true)

set_option linter.unusedVariables false

mutual

/-- Model of the external Leaflet collaborator `L.GeoJSON.addData`
(Leaflet 1.x): an array is treated as a list of features, each added
recursively; otherwise a `features` field, when it is an array, is
iterated (a truthy non-array `features` has no `length`, so the loop
adds nothing); otherwise the value itself is converted to at most one
layer.  A thrown exception aborts the iteration, keeping the layers
added so far. -/
def addDataModel : JVal → List JVal × Bool
  | .arr elems => addDataList elems
  | .obj fields =>
      match hf : List.lookup "features" fields with
      | some (.arr elems) => addDataList elems
      | some v => if v.truthy then ([], false) else toLayerModel (.obj fields)
      | none => toLayerModel (.obj fields)
  | j => toLayerModel j
termination_by j => sizeOf j
decreasing_by
  all_goals simp
  all_goals (have hlt := sizeOf_lookup_lt hf; simp at hlt; omega)

def addDataList : List JVal → List JVal × Bool
  | [] => ([], false)
  | e :: r =>
      match addDataModel e with
      | (a, true) => (a, true)
      | (a, false) =>
          match addDataList r with
          | (b, t) => (a ++ b, t)
termination_by l => sizeOf l

end

set_option linter.unusedVariables true

/-- Property-name extraction of the key-union loop over raw JSON
(`src/script.js` lines 100-105): the `if (f.properties)` truthiness
guard admits an object here; `Object.keys` of truthy non-object values
is elided — no settled claim exercises it. -/
def jvalKeys (f : JVal) : List String :=
  match f.field "properties" with
  | some (.obj ps) => ps.map Prod.fst
  | _ => []

/-- The key-union computation of `loadGeoJSON` on the raw import value
(`src/script.js` lines 98-107), guarded by
`obj.features && obj.features.length`: only a nonempty `features` array
is scanned (a truthy non-array `features` has a falsy `length`). -/
def jvalKeyUnion (j : JVal) : List String :=
  match j.field "features" with
  | some (.arr fs) =>
      if fs.length = 0 then []
      else fs.foldl (fun acc f => pushNewAll acc (jvalKeys f)) []
  | _ => []

/-- The state components named by the import contract: the loaded
layers, the selection and the key union, over raw JSON values. -/
structure RawState where
  layers : List JVal
  selected : List (Nat × JVal)
  allPropertyKeys : List String

/-- `loadGeoJSON` (`src/script.js` lines 89-112) on a raw parsed value:
the layer set, the selection and the key union are cleared first
(lines 91-93), then `addData` runs — an exception there propagates to
the caller with the cleared selection/key union left in place — and only
on success is the union recomputed.  Returns the new state and whether
it threw. -/
def loadGeoJSONRaw (j : JVal) (_st : RawState) : RawState × Bool :=
  match addDataModel j with
  | (ls, true) => ({ layers := ls, selected := [], allPropertyKeys := [] }, true)
  | (ls, false) => ({ layers := ls, selected := [], allPropertyKeys := jvalKeyUnion j }, false)

/-- The `file-input` change handler (`src/script.js` lines 147-162):
`none` models text that `JSON.parse` rejects.  The returned flag is the
`Invalid GeoJSON file.` alert (the Parse-error notice), raised both for
an encoding failure and for an `addData` exception. -/
def handleFileImport (raw : Option JVal) (st : RawState) : RawState × Bool :=
  match raw with
  | none => (st, true)
  | some j => loadGeoJSONRaw j st

/-- A prior session state holding a loaded feature, a selection and a
non-empty key union. -/
def priorRawState : RawState :=
  { layers := [.obj [("type", .str "Feature")]],
    selected := [(0, .obj [("type", .str "Feature")])],
    allPropertyKeys := ["a"] }

end WebGIS

/-- **C5.** For every collection, after load the derived property key union
contains each property name that appears on any feature exactly once
(membership characterisation plus no-duplicates), ordered by first
appearance in feature sequence order (equality with the first-seen
deduplication of the in-order key stream). -/
theorem c5_key_union_first_seen (fs : List WebGIS.Feature) :
    WebGIS.computeKeyUnion fs = WebGIS.firstSeen (WebGIS.flatKeys fs) ∧
      (WebGIS.computeKeyUnion fs).Nodup ∧
      ∀ k, k ∈ WebGIS.computeKeyUnion fs ↔ ∃ f ∈ fs, k ∈ WebGIS.keysOf f :=
  WebGIS.computeKeyUnion_spec fs

/-- **C6.** Rectangle selection is a monotonic union on the selected set:
invoking it twice with an identical rectangle yields the same final state
(hence the same selected set) as invoking it once, and no invocation
removes an entry that was already selected. -/
theorem c6_rect_select_monotone_union (st : WebGIS.ClientState) (r : WebGIS.Box) :
    WebGIS.rectSelect r (WebGIS.rectSelect r st) = WebGIS.rectSelect r st ∧
      ∀ p ∈ st.selected, p ∈ (WebGIS.rectSelect r st).selected :=
  ⟨WebGIS.rectSelect_idem r st, fun _ hp => WebGIS.mem_selFold hp⟩

/-- Witness for C6 at a concrete state: the pre-selected entry survives a
rectangle selection. -/
theorem c6_rect_select_monotone_union_witness :
    ((0 : Nat), WebGIS.sampleFeature) ∈
      (WebGIS.rectSelect WebGIS.sampleRect WebGIS.sampleState).selected :=
  (c6_rect_select_monotone_union WebGIS.sampleState WebGIS.sampleRect).2
    (0, WebGIS.sampleFeature) (by decide)

/-- **C3.** The property key union is fixed at load time: after any
sequence of selection operations (toggle, select-all, rectangle select,
clear) following a load, both the key list used to render the attribute
table and the key list used by CSV export equal the union computed at
that load. -/
theorem c3_key_union_fixed_at_load (fs : List WebGIS.Feature) (ops : List WebGIS.SelOp) :
    WebGIS.tableKeys (WebGIS.applyOps ops (WebGIS.loadGeoJSON fs)) =
        WebGIS.computeKeyUnion fs ∧
      WebGIS.csvKeys (WebGIS.applyOps ops (WebGIS.loadGeoJSON fs)) =
        WebGIS.computeKeyUnion fs :=
  have hinv := WebGIS.loadedInv_applyOps ops (WebGIS.loadedInv_load fs)
  ⟨WebGIS.tableKeys_eq_union hinv, hinv.1⟩

/-- **C4 counterexample.** At a load of one feature with the single key
`id` and that feature selected, the CSV rows all have
`keyUnion.length = 1` column, not `keyUnion.length + 1 = 2`: the header
is `keys.join(',')` with no extra column. -/
theorem c4_counterexample :
    ¬ ∀ row ∈ WebGIS.exportCSVRows WebGIS.sampleState,
        row.length = (WebGIS.computeKeyUnion [WebGIS.sampleFeature]).length + 1 := by
  decide

/-- **C4 (amended).** For every non-empty selection reached by selection
operations after a load, `exportCSV` produces output (no empty-selection
error) and every row — the header included — has exactly
`keyUnion.length` columns (not `keyUnion.length + 1`). -/
theorem c4_csv_column_count (fs : List WebGIS.Feature) (ops : List WebGIS.SelOp)
    (h : (WebGIS.applyOps ops (WebGIS.loadGeoJSON fs)).selected ≠ []) :
    (WebGIS.exportCSV (WebGIS.applyOps ops (WebGIS.loadGeoJSON fs))).isSome = true ∧
      ∀ row ∈ WebGIS.exportCSVRows (WebGIS.applyOps ops (WebGIS.loadGeoJSON fs)),
        row.length = (WebGIS.computeKeyUnion fs).length := by
  have hkeys : WebGIS.csvKeys (WebGIS.applyOps ops (WebGIS.loadGeoJSON fs)) =
      WebGIS.computeKeyUnion fs :=
    (WebGIS.loadedInv_applyOps ops (WebGIS.loadedInv_load fs)).1
  constructor
  · unfold WebGIS.exportCSV
    rw [if_neg (fun hlen => h (List.length_eq_zero.mp hlen))]
    rfl
  · intro row hrow
    unfold WebGIS.exportCSVRows at hrow
    rcases List.mem_cons.mp hrow with rfl | hdata
    · rw [hkeys]
    · rcases List.mem_map.mp hdata with ⟨p, _, rfl⟩
      rw [List.length_map, hkeys]

/-- Witness for C4 (amended) at the concrete one-feature state. -/
theorem c4_csv_column_count_witness :
    (WebGIS.exportCSV WebGIS.sampleState).isSome = true ∧
      ∀ row ∈ WebGIS.exportCSVRows WebGIS.sampleState,
        row.length = (WebGIS.computeKeyUnion [WebGIS.sampleFeature]).length :=
  c4_csv_column_count [WebGIS.sampleFeature] [WebGIS.SelOp.toggle 0] (by decide)

/-- **C9 counterexample.** With a selected feature whose property key is
`<x`, the rendered header cell text is the raw key, not its
HTML-escaping: `updateAttributeTable` interpolates header keys without
`escapeHtml`. -/
theorem c9_counterexample :
    WebGIS.headInnerHTML WebGIS.angleState = "<tr><th>#</th><th><x</th></tr>" ∧
      WebGIS.escapeHtml "<x" = "&lt;x" ∧
      WebGIS.headInnerHTML WebGIS.angleState ≠
        "<tr><th>#</th><th>" ++ WebGIS.escapeHtml "<x" ++ "</th></tr>" := by
  decide

/-- **C9 (amended).** Body cell text is HTML-escaped before display —
each body cell renders as `<td>` around the escaping of the property's
string value (empty string when absent), rows in insertion order with
1-based indices — but header cells render the raw key text, unescaped. -/
theorem c9_body_cells_escaped_header_raw (st : WebGIS.ClientState) :
    WebGIS.bodyInnerHTML st =
      WebGIS.strConcatMap
        (fun p => "<tr><td>" ++ toString (p.1 + 1) ++ "</td>" ++
          WebGIS.strConcatMap
            (fun k => "<td>" ++ WebGIS.escapeHtml (WebGIS.propOrEmpty p.2.2 k) ++ "</td>")
            (WebGIS.tableKeys st) ++ "</tr>")
        st.selected.enum ∧
      WebGIS.headInnerHTML st =
        "<tr><th>#</th>" ++
          WebGIS.strConcatMap (fun k => "<th>" ++ k ++ "</th>") (WebGIS.tableKeys st) ++
          "</tr>" := by
  constructor
  · rw [WebGIS.bodyInnerHTML_rows]
    refine WebGIS.strConcatMap_congr ?_ st.selected.enum
    intro p
    exact WebGIS.bodyRowHTML_cells (WebGIS.tableKeys st) (p.1 + 1) p.2.2
  · exact WebGIS.headInnerHTML_cells st

/-- **C1 counterexample.** The valid-JSON import `[]` — an empty array,
not a FeatureCollection-shaped object with a sequence of features — is
loaded without any Parse error (Leaflet's `addData` iterates an array as
a feature list), and the previously loaded selection and property key
union are wiped rather than left unchanged: `loadGeoJSON` clears them
before any shape validation. -/
theorem c1_counterexample :
    (WebGIS.handleFileImport (some (.arr [])) WebGIS.priorRawState).2 = false ∧
      (WebGIS.handleFileImport (some (.arr [])) WebGIS.priorRawState).1.selected.length = 0 ∧
      WebGIS.priorRawState.selected.length = 1 ∧
      (WebGIS.handleFileImport (some (.arr [])) WebGIS.priorRawState).1.allPropertyKeys ≠
        WebGIS.priorRawState.allPropertyKeys := by
  have h : WebGIS.addDataModel (.arr []) = ([], false) := by
    rw [WebGIS.addDataModel, WebGIS.addDataList]
  have hrun : WebGIS.handleFileImport (some (.arr [])) WebGIS.priorRawState =
      ({ layers := [], selected := [], allPropertyKeys := WebGIS.jvalKeyUnion (.arr []) },
        false) := by
    show WebGIS.loadGeoJSONRaw (.arr []) WebGIS.priorRawState = _
    unfold WebGIS.loadGeoJSONRaw
    rw [h]
  rw [hrun]
  refine ⟨rfl, rfl, rfl, ?_⟩
  intro hkeys
  have : ([] : List String) = ["a"] := hkeys
  exact absurd this (by decide)

/-- **C1 (amended).** An import whose text has invalid encoding
(`JSON.parse` throws) fails with a Parse error and leaves the whole
state untouched; but any successfully parsed import — of whatever
shape — is handed to `loadGeoJSON`, which unconditionally clears the
selection (and key union) before validating anything, so a parsed
non-FeatureCollection input does not leave the previous state
unchanged, and need not produce a Parse error at all. -/
theorem c1_invalid_encoding_guard :
    (∀ st : WebGIS.RawState, WebGIS.handleFileImport none st = (st, true)) ∧
      ∀ (j : WebGIS.JVal) (st : WebGIS.RawState),
        (WebGIS.handleFileImport (some j) st).1.selected = [] := by
  refine ⟨fun st => rfl, fun j st => ?_⟩
  show (WebGIS.loadGeoJSONRaw j st).1.selected = []
  unfold WebGIS.loadGeoJSONRaw
  cases h : WebGIS.addDataModel j with
  | mk ls t => cases t <;> rfl

namespace WebGIS

/-! ## Server: GET /blocks and GET /buildings (src/unnamed/part_001)

Query parameters arrive as strings (or are absent).  The numeric
coercion `Number(...)` is modelled by its result: `NaN` (absent or
non-numeric input) or a finite value in `ℚ`.  Infinite results are not
modelled — no settled claim exercises them. -/

inductive JNum where
  | nan
  | fin (q : ℚ)
deriving DecidableEq, Repr

/-- `Number.isFinite`. -/
def JNum.finiteNum : JNum → Bool
  | .nan => false
  | .fin _ => true

/-- The numeric value of a coerced component, defaulting NaN to `0`;
only ever used under a guard that excludes NaN. -/
def JNum.val : JNum → ℚ
  | .nan => 0
  | .fin q => q

/-- `Number(req.query.limit) || 1000`: NaN and `0` are falsy. -/
def limitOrDefault : JNum → ℚ
  | .nan => 1000
  | .fin q => if q = 0 then 1000 else q

/-- `const limit = Math.min(Number(req.query.limit) || 1000, 10000)`
(`src/unnamed/part_001` lines 108 and 158). -/
def effectiveLimit (l : JNum) : ℚ :=
  min (limitOrDefault l) 10000

/-- Whitespace for `String.prototype.trim` (the common characters; the
exotic Unicode space code points are elided). -/
def isJsSpace (c : Char) : Bool :=
  (c == ' ') || (c == '\t') || (c == '\n') || (c == '\r')

/-- `String.prototype.trim`. -/
def jsTrim (s : String) : String :=
  String.mk (((s.data.dropWhile isJsSpace).reverse.dropWhile isJsSpace).reverse)

/-- `const q = req.query.q ? String(req.query.q).trim() : null`
(lines 109 and 159): an absent or empty (falsy) parameter gives `null`,
otherwise the trimmed text. -/
def qVal (qp : Option String) : Option String :=
  match qp with
  | none => none
  | some s => if s = "" then none else some (jsTrim s)

/-- The substring-clause parameter: pushed only when the trimmed `q` is
truthy, i.e. non-empty (lines 116-119 and 167). -/
def qClause (qp : Option String) : Option String :=
  match qVal qp with
  | none => none
  | some t => if t = "" then none else some t

/-- The bbox guard and clause (lines 120-125 and 169-174): the split and
coerced components must number exactly four and all be finite, otherwise
no spatial clause is added. -/
def bboxClause (bp : Option (List JNum)) : Option Box :=
  match bp with
  | none => none
  | some l =>
      if l.length = 4 ∧ ∀ x ∈ l, x.finiteNum = true then
        some { minX := (l.getD 0 .nan).val, minY := (l.getD 1 .nan).val,
               maxX := (l.getD 2 .nan).val, maxY := (l.getD 3 .nan).val }
      else none

/-- A source-table row: the label column used by the substring filter, a
bounding box standing for its geometry in the spatial test, the
serialized geometry, and the non-geometry columns. -/
structure DbRow where
  name : Option String
  geomBox : Box
  geomJson : JVal
  props : List (String × JVal)

/-- Prefix test over characters. -/
def listStartsWith : List Char → List Char → Bool
  | _, [] => true
  | [], _ :: _ => false
  | h :: t, n :: m => (h == n) && listStartsWith t m

/-- Substring containment over characters. -/
def listHasSub (hay needle : List Char) : Bool :=
  if listStartsWith hay needle then true
  else
    match hay with
    | [] => false
    | _ :: t => listHasSub t needle

/-- `name ILIKE '%' || q || '%'`: case-insensitive substring match on
the label column; a SQL NULL name never matches. -/
def iLikeContains (name : Option String) (t : String) : Bool :=
  match name with
  | none => false
  | some n => listHasSub (n.data.map Char.toLower) (t.data.map Char.toLower)

/-- The WHERE filter assembled from the optional clauses (conjunction;
no clause means every row matches). -/
def rowMatches (qc : Option String) (bc : Option Box) (r : DbRow) : Bool :=
  (match qc with
    | none => true
    | some t => iLikeContains r.name t) &&
  (match bc with
    | none => true
    | some env => boxOverlap r.geomBox env)

/-- Model of the PostgreSQL execution of the subquery `SELECT * FROM t
WHERE ... LIMIT n`: the filtered rows truncated by the limit.
PostgreSQL rejects a negative limit (`LIMIT must not be negative`),
surfaced as a query error; the rounding of a non-integral limit is not
depended on by any settled claim (floor is used here). -/
def runLimited (limit : ℚ) (rows : List DbRow) : Except String (List DbRow) :=
  if limit < 0 then .error "LIMIT must not be negative"
  else .ok (rows.take limit.floor.toNat)

/-- One aggregated row: `jsonb_build_object('type','Feature', 'geometry',
ST_AsGeoJSON(geom)::jsonb, 'properties', to_jsonb(row) - 'geom')`. -/
def rowFeature (r : DbRow) : JVal :=
  .obj [("type", .str "Feature"), ("geometry", r.geomJson), ("properties", .obj r.props)]

/-- The aggregated response document: `COALESCE(jsonb_agg(...),
'[]'::jsonb)` turns the empty aggregate into an empty array, so an empty
row set still yields a FeatureCollection object. -/
def featureCollectionOf (rows : List DbRow) : JVal :=
  .obj [("type", .str "FeatureCollection"), ("features", .arr (rows.map rowFeature))]

structure ApiRequest where
  limit : JNum
  q : Option String
  bbox : Option (List JNum)

structure ApiResponse where
  status : Nat
  body : JVal

/-- The shared body of the `GET /blocks` (lines 106-153) and
`GET /buildings` (lines 156-202) handlers, which differ only in their
source table: clamp the limit, build the optional substring and bbox
clauses (bound as parameters), run the aggregation, and answer 200 with
the FeatureCollection document — or 500 with `{error}` when the query
throws. -/
def serveTable (table : List DbRow) (req : ApiRequest) : ApiResponse :=
  match runLimited (effectiveLimit req.limit)
      (table.filter (rowMatches (qClause req.q) (bboxClause req.bbox))) with
  | .error e => { status := 500, body := .obj [("error", .str e)] }
  | .ok rows => { status := 200, body := featureCollectionOf rows }

def blocksHandler (table : List DbRow) (req : ApiRequest) : ApiResponse :=
  serveTable table req

def buildingsHandler (table : List DbRow) (req : ApiRequest) : ApiResponse :=
  serveTable table req

/-- A request carrying `?limit=-5` and nothing else. -/
def negLimitRequest : ApiRequest :=
  { limit := .fin (-5), q := none, bbox := none }

end WebGIS

namespace WebGIS

theorem bboxClause_none_of_malformed {l : List JNum}
    (hm : ¬(l.length = 4 ∧ ∀ x ∈ l, x.finiteNum = true)) :
    bboxClause (some l) = none := by
  unfold bboxClause
  dsimp only
  rw [if_neg hm]

theorem qClause_none_of_blank {s : String} (hblank : jsTrim s = "") :
    qClause (some s) = none := by
  unfold qClause qVal
  by_cases hs : s = ""
  · simp [hs]
  · simp [hs, hblank]

/-- A request with every parameter absent. -/
def emptyRequest : ApiRequest :=
  { limit := .nan, q := none, bbox := none }

/-- A request whose `bbox` coerced to a single non-finite component. -/
def badBboxRequest : ApiRequest :=
  { limit := .nan, q := none, bbox := some [.nan] }

/-- A request whose `q` is a blank (whitespace-only) string. -/
def blankQRequest : ApiRequest :=
  { limit := .nan, q := some " ", bbox := none }

end WebGIS

/-- **C2 counterexample.** `limit=-5` coerces to the finite, truthy value
`-5`, so the default is not taken and `Math.min(-5, 10000) = -5`: the
effective limit is below `1`, refuting the claimed lower clamp to the
range `[1, 10000]`; the negative limit then reaches the database and the
request answers 500. -/
theorem c2_counterexample :
    WebGIS.effectiveLimit WebGIS.negLimitRequest.limit = -5 ∧
      ¬(1 ≤ WebGIS.effectiveLimit WebGIS.negLimitRequest.limit) ∧
      (WebGIS.buildingsHandler [] WebGIS.negLimitRequest).status = 500 := by
  refine ⟨by decide, by decide, rfl⟩

/-- **C2 (amended).** The effective limit never exceeds 10000 and
defaults to 1000 when the parameter is absent/non-numeric (NaN) or `0`
(both falsy); for any requested value `≥ 1` it lies in `[1, 10000]`; but
negative numeric values pass through unclamped — the lower bound `1`
holds only for non-negative inputs, not for every value. -/
theorem c2_limit_clamping (l : WebGIS.JNum) :
    WebGIS.effectiveLimit l ≤ 10000 ∧
      WebGIS.effectiveLimit .nan = 1000 ∧
      WebGIS.effectiveLimit (.fin 0) = 1000 ∧
      ∀ q : ℚ, 1 ≤ q →
        1 ≤ WebGIS.effectiveLimit (.fin q) ∧ WebGIS.effectiveLimit (.fin q) ≤ 10000 := by
  refine ⟨min_le_right _ _, by decide, by decide, ?_⟩
  intro q hq
  have hq0 : q ≠ 0 := by
    intro h
    rw [h] at hq
    norm_num at hq
  constructor
  · unfold WebGIS.effectiveLimit WebGIS.limitOrDefault
    dsimp only
    rw [if_neg hq0]
    exact le_min hq (by norm_num)
  · exact min_le_right _ _

/-- Witness for C2 (amended) at `limit=5`. -/
theorem c2_limit_clamping_witness :
    WebGIS.effectiveLimit (.fin 5) ≤ 10000 ∧
      (1 ≤ WebGIS.effectiveLimit (.fin 5) ∧ WebGIS.effectiveLimit (.fin 5) ≤ 10000) :=
  ⟨(c2_limit_clamping (.fin 5)).1, (c2_limit_clamping (.fin 5)).2.2.2 5 (by decide)⟩

/-- **C7 counterexample.** On an empty table — the filters match no
rows — a request with `limit=-5` is answered with status 500 and a
`{error}` body (PostgreSQL rejects the un-clamped negative LIMIT), not
with an empty FeatureCollection: the claim fails for requests whose
effective limit is negative. -/
theorem c7_counterexample :
    List.filter
        (WebGIS.rowMatches (WebGIS.qClause WebGIS.negLimitRequest.q)
          (WebGIS.bboxClause WebGIS.negLimitRequest.bbox))
        ([] : List WebGIS.DbRow) = [] ∧
      (WebGIS.buildingsHandler [] WebGIS.negLimitRequest).status = 500 ∧
      (WebGIS.blocksHandler [] WebGIS.negLimitRequest).status = 500 := by
  refine ⟨rfl, rfl, rfl⟩

/-- **C7 (amended).** For every `/blocks` or `/buildings` request whose
effective limit is non-negative and whose filters match no rows, the
response is `{type:"FeatureCollection", features: []}` with status 200 —
never null and never an error (`COALESCE(jsonb_agg(...), '[]')` turns
the empty aggregate into an empty feature array). -/
theorem c7_no_match_yields_empty_collection (table : List WebGIS.DbRow)
    (req : WebGIS.ApiRequest) (hlim : 0 ≤ WebGIS.effectiveLimit req.limit)
    (hmatch : table.filter
        (WebGIS.rowMatches (WebGIS.qClause req.q) (WebGIS.bboxClause req.bbox)) = []) :
    WebGIS.blocksHandler table req =
        { status := 200,
          body := .obj [("type", .str "FeatureCollection"), ("features", .arr [])] } ∧
      WebGIS.buildingsHandler table req =
        { status := 200,
          body := .obj [("type", .str "FeatureCollection"), ("features", .arr [])] } := by
  have hrun : WebGIS.runLimited (WebGIS.effectiveLimit req.limit)
      (table.filter
        (WebGIS.rowMatches (WebGIS.qClause req.q) (WebGIS.bboxClause req.bbox))) =
      .ok [] := by
    unfold WebGIS.runLimited
    rw [hmatch, if_neg (not_lt.mpr hlim), List.take_nil]
  constructor
  · show WebGIS.serveTable table req = _
    unfold WebGIS.serveTable
    rw [hrun]
    rfl
  · show WebGIS.serveTable table req = _
    unfold WebGIS.serveTable
    rw [hrun]
    rfl

/-- Witness for C7 (amended): the empty table with all parameters
absent. -/
theorem c7_no_match_yields_empty_collection_witness :
    WebGIS.blocksHandler [] WebGIS.emptyRequest =
        { status := 200,
          body := .obj [("type", .str "FeatureCollection"), ("features", .arr [])] } ∧
      WebGIS.buildingsHandler [] WebGIS.emptyRequest =
        { status := 200,
          body := .obj [("type", .str "FeatureCollection"), ("features", .arr [])] } :=
  c7_no_match_yields_empty_collection [] WebGIS.emptyRequest (by decide) rfl

/-- **C8.** A malformed `bbox` parameter — wrong arity after
comma-splitting, or any component not a finite number — adds no spatial
clause and does not reject the request: the response equals that of the
same request without `bbox`, on both endpoints. -/
theorem c8_malformed_bbox_ignored (table : List WebGIS.DbRow) (req : WebGIS.ApiRequest)
    (l : List WebGIS.JNum) (hb : req.bbox = some l)
    (hm : ¬(l.length = 4 ∧ ∀ x ∈ l, x.finiteNum = true)) :
    WebGIS.bboxClause req.bbox = none ∧
      WebGIS.blocksHandler table req = WebGIS.blocksHandler table { req with bbox := none } ∧
      WebGIS.buildingsHandler table req =
        WebGIS.buildingsHandler table { req with bbox := none } := by
  have hnone : WebGIS.bboxClause req.bbox = none := by
    rw [hb]
    exact WebGIS.bboxClause_none_of_malformed hm
  refine ⟨hnone, ?_, ?_⟩
  · show WebGIS.serveTable table req = WebGIS.serveTable table { req with bbox := none }
    unfold WebGIS.serveTable
    rw [hnone]
    rfl
  · show WebGIS.serveTable table req = WebGIS.serveTable table { req with bbox := none }
    unfold WebGIS.serveTable
    rw [hnone]
    rfl


/-- Witness for C8 at `bbox=abc` (one non-finite component). -/
theorem c8_malformed_bbox_ignored_witness :
    WebGIS.bboxClause WebGIS.badBboxRequest.bbox = none ∧
      WebGIS.blocksHandler [] WebGIS.badBboxRequest =
        WebGIS.blocksHandler [] { WebGIS.badBboxRequest with bbox := none } ∧
      WebGIS.buildingsHandler [] WebGIS.badBboxRequest =
        WebGIS.buildingsHandler [] { WebGIS.badBboxRequest with bbox := none } :=
  c8_malformed_bbox_ignored [] WebGIS.badBboxRequest [.nan] rfl (by decide)

/-- **C10.** A `q` parameter that is empty or whitespace-only builds no
substring clause and binds no parameter — the trimmed value is what the
clause-presence check sees — so the response is identical to that of the
same request with `q` absent, on both endpoints. -/
theorem c10_blank_q_ignored (table : List WebGIS.DbRow) (req : WebGIS.ApiRequest)
    (s : String) (hq : req.q = some s) (hblank : WebGIS.jsTrim s = "") :
    WebGIS.qClause req.q = none ∧
      WebGIS.blocksHandler table req = WebGIS.blocksHandler table { req with q := none } ∧
      WebGIS.buildingsHandler table req =
        WebGIS.buildingsHandler table { req with q := none } := by
  have hnone : WebGIS.qClause req.q = none := by
    rw [hq]
    exact WebGIS.qClause_none_of_blank hblank
  refine ⟨hnone, ?_, ?_⟩
  · show WebGIS.serveTable table req = WebGIS.serveTable table { req with q := none }
    unfold WebGIS.serveTable
    rw [hnone]
    rfl
  · show WebGIS.serveTable table req = WebGIS.serveTable table { req with q := none }
    unfold WebGIS.serveTable
    rw [hnone]
    rfl


/-- Witness for C10 at `q=" "`. -/
theorem c10_blank_q_ignored_witness :
    WebGIS.qClause WebGIS.blankQRequest.q = none ∧
      WebGIS.blocksHandler [] WebGIS.blankQRequest =
        WebGIS.blocksHandler [] { WebGIS.blankQRequest with q := none } ∧
      WebGIS.buildingsHandler [] WebGIS.blankQRequest =
        WebGIS.buildingsHandler [] { WebGIS.blankQRequest with q := none } :=
  c10_blank_q_ignored [] WebGIS.blankQRequest " " rfl (by decide)
